import Mathlib

/-!
Shallow embedding of the recent-files plugin core (src/main.ts):
the MRU list maintenance (`updateData`), the file-open event handler
(`update`), prefix-based exclusion (`shouldAddFile`), pruning
(`pruneOmittedFiles`), persistence loading (`loadData`) and the view
projection (`redraw`).
-/

namespace RecentFiles

/-- The `File` interface of main.ts: `path` and `basename` strings. -/
structure File where
  path : String
  basename : String
deriving DecidableEq, Repr

/-- The `RecentFilesData` interface: the persisted plugin state. -/
structure RecentFilesData where
  recentFiles : List File
  omittedPaths : List String
  maxLength : Nat
deriving DecidableEq, Repr

/-- `DEFAULT_DATA` from main.ts. -/
def DEFAULT_DATA : RecentFilesData :=
  { recentFiles := [], omittedPaths := [], maxLength := 5 }

/-- `updateData` (main.ts lines 68-86): filter out entries with the touched
file's basename, splice the new entry in at position 0, then if the list now
exceeds `maxLength` splice off `toRemove` entries from the tail (keeping the
first `length - toRemove` entries).  The `saveData` side effect is modelled
separately in `update`. -/
def updateData (file : File) (d : RecentFilesData) : RecentFilesData :=
  let afterFilter :=
    d.recentFiles.filter (fun currFile => currFile.basename != file.basename)
  let afterInsert :=
    ({ basename := file.basename, path := file.path } : File) :: afterFilter
  let toRemove : Int := (afterInsert.length : Int) - (d.maxLength : Int)
  let newRecent :=
    if 0 < toRemove then afterInsert.take (afterInsert.length - toRemove.toNat)
    else afterInsert
  { d with recentFiles := newRecent }

/-- Models JavaScript `String.prototype.startsWith`, used at main.ts
line 191: `s.startsWith(p)` holds iff `p` is a prefix of `s`.  Defined on
the underlying character lists so that it is executable by the kernel. -/
def jsStartsWith (s p : String) : Bool :=
  p.data.isPrefixOf s.data

/-- `shouldAddFile` (main.ts lines 188-191): true iff no non-empty omitted
path is a prefix of the file's path (`find` returns `undefined`). -/
def shouldAddFile (d : RecentFilesData) (file : File) : Bool :=
  ((d.omittedPaths.filter (fun path => decide (path.length > 0))).find?
    (fun omittedPath => jsStartsWith file.path omittedPath)).isNone

/-- `pruneOmittedFiles` (main.ts lines 183-186): keep only entries that
`shouldAddFile` accepts. -/
def pruneOmittedFiles (d : RecentFilesData) : RecentFilesData :=
  { d with recentFiles := d.recentFiles.filter (fun f => shouldAddFile d f) }

/-- Result of the `update` event handler: the state afterwards, and whether
the handler redrew the view and saved the data. -/
structure UpdateResult where
  data : RecentFilesData
  redrew : Bool
  saved : Bool
deriving DecidableEq, Repr

/-- `update` (main.ts lines 88-95): if `shouldAddFile` rejects the opened
file, return without touching anything; otherwise run `updateData` (which
saves) and redraw. -/
def update (openedFile : File) (d : RecentFilesData) : UpdateResult :=
  if shouldAddFile d openedFile then
    { data := updateData openedFile d, redrew := true, saved := true }
  else
    { data := d, redrew := false, saved := false }

/-- The store mutations quantified over in the dedup invariant: a `touch`
(`updateData`) or a `pruneOmittedFiles`. -/
inductive Op
  | touch (f : File)
  | prune
deriving DecidableEq, Repr

/-- Apply one store mutation. -/
def applyOp (o : Op) (d : RecentFilesData) : RecentFilesData :=
  match o with
  | .touch f => updateData f d
  | .prune => pruneOmittedFiles d

/-- Apply a sequence of store mutations, oldest first. -/
def applyOps (ops : List Op) (d : RecentFilesData) : RecentFilesData :=
  ops.foldl (fun s o => applyOp o s) d

/-- A possibly-partial persisted blob, as `loadData` (main.ts line 165)
receives it from `super.loadData()`: each field may be absent. -/
structure PartialData where
  recentFiles : Option (List File)
  omittedPaths : Option (List String)
  maxLength : Option Nat
deriving DecidableEq, Repr

/-- Models `Object.assign(target, src)` for these two record types: every
field present in `src` overwrites the target's field, absent fields keep the
target's value. -/
def objectAssign (target : RecentFilesData) (src : PartialData) : RecentFilesData :=
  { recentFiles := src.recentFiles.getD target.recentFiles,
    omittedPaths := src.omittedPaths.getD target.omittedPaths,
    maxLength := src.maxLength.getD target.maxLength }

/-- `loadData` (main.ts lines 164-166):
`Object.assign(DEFAULT_DATA, await super.loadData())`.  A missing blob
(`null`) leaves the defaults untouched. -/
def loadData (blob : Option PartialData) : RecentFilesData :=
  match blob with
  | none => DEFAULT_DATA
  | some src => objectAssign DEFAULT_DATA src

/-- One rendered row of the view: its displayed label and whether it carries
the `is-active` class. -/
structure Row where
  label : String
  isActive : Bool
deriving DecidableEq, Repr

/-- `redraw` (main.ts lines 97-124), abstracted to its row descriptors: one
row per entry of the recent list, in order, labelled with the entry's
basename and active iff that basename equals the open file's basename. -/
def redraw (recentFiles : List File) (openFile : File) : List Row :=
  recentFiles.map (fun currentFile =>
    { label := currentFile.basename,
      isActive := currentFile.basename == openFile.basename })

/-- The dedup invariant: no two entries of the recent list share a basename. -/
def basenamesNodup (d : RecentFilesData) : Prop :=
  (d.recentFiles.map File.basename).Nodup

instance (d : RecentFilesData) : Decidable (basenamesNodup d) :=
  inferInstanceAs (Decidable (List.Nodup _))

/-- Sanity check of the embedding on the spec's eviction scenario:
`maxLength = 2`, touch A, B, C leaves `[C, B]`. -/
lemma scenario_eviction :
    (updateData ⟨"/c", "C"⟩ (updateData ⟨"/b", "B"⟩
      (updateData ⟨"/a", "A"⟩ ⟨[], [], 2⟩))).recentFiles
      = [⟨"/c", "C"⟩, ⟨"/b", "B"⟩] := by decide

/-- Sanity check: omitted-path matching on the spec's daily-notes scenario. -/
lemma scenario_omitted :
    shouldAddFile ⟨[], ["daily/"], 5⟩ ⟨"daily/2024-01-01", "2024-01-01"⟩
      = false := by decide

/-- `updateData` keeps the `maxLength` first entries of the new entry consed
onto the basename-filtered old list: the two `splice` branches both reduce to
a `take`. -/
lemma updateData_recentFiles (f : File) (d : RecentFilesData) :
    (updateData f d).recentFiles =
      (({ basename := f.basename, path := f.path } : File) ::
        d.recentFiles.filter (fun c => c.basename != f.basename)).take
        d.maxLength := by
  simp only [updateData]
  split
  · next h =>
    congr 1
    rw [Int.toNat_sub]
    have hlt : d.maxLength <
        (({ basename := f.basename, path := f.path } : File) ::
          d.recentFiles.filter (fun c => c.basename != f.basename)).length := by
      omega
    omega
  · next h =>
    have hle : (({ basename := f.basename, path := f.path } : File) ::
        d.recentFiles.filter (fun c => c.basename != f.basename)).length
        ≤ d.maxLength := by omega
    exact (List.take_of_length_le hle).symm

/-- `updateData` does not change `maxLength`. -/
lemma updateData_maxLength (f : File) (d : RecentFilesData) :
    (updateData f d).maxLength = d.maxLength := rfl

/-- After any single `updateData` the list length is at most `maxLength`,
whatever the previous state was. -/
lemma updateData_length_le (f : File) (d : RecentFilesData) :
    (updateData f d).recentFiles.length ≤ d.maxLength := by
  rw [updateData_recentFiles, List.length_take]
  exact Nat.min_le_left _ _

/-- Along any sequence of touches, a state satisfying the length bound keeps
satisfying it. -/
lemma applyOps_touch_length_le (fs : List File) (d : RecentFilesData)
    (h : d.recentFiles.length ≤ d.maxLength) :
    (applyOps (fs.map Op.touch) d).recentFiles.length ≤ d.maxLength := by
  induction fs generalizing d with
  | nil => exact h
  | cons g gs ih =>
    simp only [List.map_cons, applyOps, List.foldl_cons, applyOp] at *
    have h1 : (updateData g d).recentFiles.length
        ≤ (updateData g d).maxLength := by
      rw [updateData_maxLength]; exact updateData_length_le g d
    have h2 := ih (updateData g d) h1
    rwa [updateData_maxLength] at h2

/-- C1: after `touch(file)` (`updateData`) the recent list's length is at
most `maxLength`; with `maxLength = 0` the list is empty after any touch;
and after each call of any sequence of touches the bound still holds. -/
theorem claim_C1 (d : RecentFilesData) (f : File) (fs : List File) :
    (updateData f d).recentFiles.length ≤ d.maxLength ∧
    (d.maxLength = 0 → (updateData f d).recentFiles = []) ∧
    (applyOps (fs.map Op.touch) (updateData f d)).recentFiles.length
      ≤ d.maxLength := by
  refine ⟨updateData_length_le f d, ?_, ?_⟩
  · intro h0
    have hb := updateData_length_le f d
    rw [h0, Nat.le_zero] at hb
    exact List.length_eq_zero.mp hb
  · have h1 : (updateData f d).recentFiles.length
        ≤ (updateData f d).maxLength := by
      rw [updateData_maxLength]; exact updateData_length_le f d
    have h2 := applyOps_touch_length_le fs (updateData f d) h1
    rwa [updateData_maxLength] at h2

/-- Witness for C1 at a concrete input: with `maxLength = 0` the list is
empty after a touch, via the second conjunct. -/
theorem claim_C1_witness :
    (updateData ⟨"/a", "A"⟩ ⟨[], [], 0⟩).recentFiles = [] :=
  (claim_C1 ⟨[], [], 0⟩ ⟨"/a", "A"⟩ []).2.1 rfl

/-- A touch preserves the dedup invariant: the new entry's basename was
filtered out of the tail, and taking a prefix preserves `Nodup`. -/
lemma basenamesNodup_updateData (f : File) (d : RecentFilesData)
    (h : basenamesNodup d) : basenamesNodup (updateData f d) := by
  unfold basenamesNodup at *
  rw [updateData_recentFiles, List.map_take]
  apply List.Nodup.sublist (List.take_sublist _ _)
  rw [List.map_cons, List.nodup_cons]
  constructor
  · intro hmem
    rw [List.mem_map] at hmem
    obtain ⟨c, hc, hcb⟩ := hmem
    rw [List.mem_filter] at hc
    exact (bne_iff_ne.mp hc.2) hcb
  · exact List.Nodup.sublist
      (List.Sublist.map _ (List.filter_sublist _)) h

/-- Pruning preserves the dedup invariant: it only filters the list. -/
lemma basenamesNodup_prune (d : RecentFilesData)
    (h : basenamesNodup d) : basenamesNodup (pruneOmittedFiles d) := by
  unfold basenamesNodup pruneOmittedFiles at *
  exact List.Nodup.sublist (List.Sublist.map _ (List.filter_sublist _)) h

/-- Every single store mutation preserves the dedup invariant. -/
lemma basenamesNodup_applyOp (o : Op) (d : RecentFilesData)
    (h : basenamesNodup d) : basenamesNodup (applyOp o d) := by
  cases o with
  | touch f => exact basenamesNodup_updateData f d h
  | prune => exact basenamesNodup_prune d h

/-- C2: starting from a state with no two entries sharing a basename, after
any sequence of `touch` (`updateData`) and `pruneOmittedFiles` operations no
two entries of the recent list share a basename. -/
theorem claim_C2 (d : RecentFilesData) (ops : List Op)
    (h : basenamesNodup d) : basenamesNodup (applyOps ops d) := by
  induction ops generalizing d with
  | nil => exact h
  | cons o os ih =>
    simp only [applyOps, List.foldl_cons] at *
    exact ih (applyOp o d) (basenamesNodup_applyOp o d h)

/-- Witness for C2 at a concrete input: a touch followed by a prune keeps
the basenames distinct. -/
theorem claim_C2_witness :
    basenamesNodup (applyOps [Op.touch ⟨"/a", "A"⟩, Op.prune]
      ⟨[⟨"/b", "B"⟩], ["x"], 5⟩) :=
  claim_C2 ⟨[⟨"/b", "B"⟩], ["x"], 5⟩ [Op.touch ⟨"/a", "A"⟩, Op.prune]
    (by decide)

/-- C9: `touch` (`updateData`) and `pruneOmittedFiles` change only the
`recentFiles` field; `omittedPaths` and `maxLength` are untouched. -/
theorem claim_C9 (d : RecentFilesData) (f : File) :
    (updateData f d).omittedPaths = d.omittedPaths ∧
    (updateData f d).maxLength = d.maxLength ∧
    (pruneOmittedFiles d).omittedPaths = d.omittedPaths ∧
    (pruneOmittedFiles d).maxLength = d.maxLength :=
  ⟨rfl, rfl, rfl, rfl⟩

/-- C3: with `maxLength ≥ 1`, `touch(f)` puts the entry with `f`'s basename
and path at position 0, and the remaining entries are previous entries in
their previous relative order (a sublist of the old list); in particular the
spec's scenario `[A,B,C]`, touch `B`, `maxLength = 3` yields `[B,A,C]`. -/
theorem claim_C3 (d : RecentFilesData) (f : File) (h : 1 ≤ d.maxLength) :
    (∃ rest, (updateData f d).recentFiles
        = ({ basename := f.basename, path := f.path } : File) :: rest ∧
      rest.Sublist d.recentFiles) ∧
    (updateData ⟨"/b", "B"⟩
        ⟨[⟨"/a", "A"⟩, ⟨"/b", "B"⟩, ⟨"/c", "C"⟩], [], 3⟩).recentFiles
      = [⟨"/b", "B"⟩, ⟨"/a", "A"⟩, ⟨"/c", "C"⟩] := by
  constructor
  · rw [updateData_recentFiles]
    obtain ⟨n, hn⟩ : ∃ n, d.maxLength = n + 1 := ⟨d.maxLength - 1, by omega⟩
    rw [hn, List.take_succ_cons]
    exact ⟨_, rfl, (List.take_sublist _ _).trans (List.filter_sublist _)⟩
  · decide

/-- Witness for C3 at a concrete input: touching `B` in `[A,B,C]` leaves an
entry for `B` at the head, above a sublist of the old list. -/
theorem claim_C3_witness :
    ∃ rest, (updateData ⟨"/b", "B"⟩
        ⟨[⟨"/a", "A"⟩, ⟨"/b", "B"⟩, ⟨"/c", "C"⟩], [], 3⟩).recentFiles
        = ({ basename := "B", path := "/b" } : File) :: rest ∧
      rest.Sublist [⟨"/a", "A"⟩, ⟨"/b", "B"⟩, ⟨"/c", "C"⟩] :=
  (claim_C3 ⟨[⟨"/a", "A"⟩, ⟨"/b", "B"⟩, ⟨"/c", "C"⟩], [], 3⟩ ⟨"/b", "B"⟩
    (by decide)).1

/-- C10 as stated fails when `maxLength = 0`: after a touch the list is
empty, so it holds zero entries with the touched basename, not exactly one. -/
theorem claim_C10_counterexample :
    ¬ (((updateData ⟨"/a", "a"⟩ ⟨[], [], 0⟩).recentFiles.filter
        (fun e => e.basename == "a")).length = 1) := by decide

/-- C10 amended: provided `maxLength ≥ 1`, `touch` (`updateData`) removes
all, not just the first, pre-existing entries with the touched basename, so
from every pre-state — including one holding duplicate basenames — the
post-state holds exactly one entry with that basename. -/
theorem claim_C10 (d : RecentFilesData) (f : File) (h : 1 ≤ d.maxLength) :
    ((updateData f d).recentFiles.filter
      (fun e => e.basename == f.basename)).length = 1 := by
  rw [updateData_recentFiles]
  obtain ⟨n, hn⟩ : ∃ n, d.maxLength = n + 1 := ⟨d.maxLength - 1, by omega⟩
  rw [hn, List.take_succ_cons, List.filter_cons]
  have hnil : ((d.recentFiles.filter
      (fun c => c.basename != f.basename)).take n).filter
      (fun e => e.basename == f.basename) = [] := by
    rw [List.filter_eq_nil_iff]
    intro a ha
    have ha2 := (List.take_sublist _ _).mem ha
    rw [List.mem_filter] at ha2
    rw [beq_iff_eq]
    exact bne_iff_ne.mp ha2.2
  simp [hnil]

/-- Witness for C10 at a concrete input: a pre-state with two entries named
`a` ends up with exactly one after touching a file named `a`. -/
theorem claim_C10_witness :
    ((updateData ⟨"/a", "a"⟩
        ⟨[⟨"/x/a", "a"⟩, ⟨"/y/a", "a"⟩], [], 5⟩).recentFiles.filter
      (fun e => e.basename == "a")).length = 1 :=
  claim_C10 ⟨[⟨"/x/a", "a"⟩, ⟨"/y/a", "a"⟩], [], 5⟩ ⟨"/a", "a"⟩ (by decide)

/-- C5: `pruneOmittedFiles` is idempotent, and after one application every
remaining entry is accepted by `shouldAddFile` in the resulting state. -/
theorem claim_C5 (d : RecentFilesData) :
    (pruneOmittedFiles (pruneOmittedFiles d)).recentFiles
      = (pruneOmittedFiles d).recentFiles ∧
    ∀ e ∈ (pruneOmittedFiles d).recentFiles,
      shouldAddFile (pruneOmittedFiles d) e = true := by
  have hall : ∀ e ∈ (pruneOmittedFiles d).recentFiles,
      shouldAddFile d e = true := by
    intro e he
    exact (List.mem_filter.mp he).2
  exact ⟨List.filter_eq_self.mpr hall, hall⟩

/-- Witness for C5 at a concrete input: pruning a list with one omitted and
one kept entry twice equals pruning it once. -/
theorem claim_C5_witness :
    (pruneOmittedFiles (pruneOmittedFiles
        ⟨[⟨"daily/x", "x"⟩, ⟨"/b", "B"⟩], ["daily/"], 5⟩)).recentFiles
      = (pruneOmittedFiles
        ⟨[⟨"daily/x", "x"⟩, ⟨"/b", "B"⟩], ["daily/"], 5⟩).recentFiles :=
  (claim_C5 ⟨[⟨"daily/x", "x"⟩, ⟨"/b", "B"⟩], ["daily/"], 5⟩).1

/-- C6: when `shouldAddFile` rejects the opened file, the `update` handler
leaves the whole state unchanged and neither redraws nor saves. -/
theorem claim_C6 (d : RecentFilesData) (f : File)
    (h : shouldAddFile d f = false) :
    (update f d).data = d ∧ (update f d).redrew = false ∧
    (update f d).saved = false := by
  simp [update, h]

/-- Witness for C6 at the spec's scenario: opening `daily/2024-01-01` with
`daily/` omitted changes nothing. -/
theorem claim_C6_witness :
    (update ⟨"daily/2024-01-01", "2024-01-01"⟩ ⟨[], ["daily/"], 5⟩).data
      = ⟨[], ["daily/"], 5⟩ ∧
    (update ⟨"daily/2024-01-01", "2024-01-01"⟩
      ⟨[], ["daily/"], 5⟩).redrew = false ∧
    (update ⟨"daily/2024-01-01", "2024-01-01"⟩
      ⟨[], ["daily/"], 5⟩).saved = false :=
  claim_C6 ⟨[], ["daily/"], 5⟩ ⟨"daily/2024-01-01", "2024-01-01"⟩
    (by decide)

/-- A string has positive length exactly when it is not the empty string. -/
lemma string_length_pos_iff (s : String) : 0 < s.length ↔ s ≠ "" := by
  constructor
  · intro h he
    rw [he] at h
    exact Nat.lt_irrefl 0 h
  · intro h
    rcases s with ⟨_ | ⟨c, cs⟩⟩
    · exact absurd rfl h
    · rw [String.length_mk]
      exact Nat.succ_pos _

/-- C4: `shouldAddFile` returns false iff some non-empty omitted path is a
prefix of the file's path; it returns true on an empty `omittedPaths`, and an
empty-string entry never excludes a file (it never satisfies the left side
of the iff). -/
theorem claim_C4 (d : RecentFilesData) (f : File) :
    (shouldAddFile d f = false ↔
      ∃ p ∈ d.omittedPaths, p ≠ "" ∧ jsStartsWith f.path p = true) ∧
    (d.omittedPaths = [] → shouldAddFile d f = true) := by
  constructor
  · unfold shouldAddFile
    rw [Bool.eq_false_iff, ne_eq, Option.isNone_iff_eq_none,
      List.find?_eq_none]
    push_neg
    constructor
    · rintro ⟨p, hp, hstart⟩
      rw [List.mem_filter] at hp
      refine ⟨p, hp.1, ?_, ?_⟩
      · rw [← string_length_pos_iff]
        simpa using hp.2
      · simpa using hstart
    · rintro ⟨p, hp, hne, hstart⟩
      refine ⟨p, ?_, by simpa using hstart⟩
      rw [List.mem_filter]
      exact ⟨hp, by simpa using (string_length_pos_iff p).mpr hne⟩
  · intro h
    simp [shouldAddFile, h]

/-- Witness for C4 at a concrete input: with no omitted paths every file is
tracked. -/
theorem claim_C4_witness :
    shouldAddFile ⟨[], [], 5⟩ ⟨"daily/x", "x"⟩ = true :=
  (claim_C4 ⟨[], [], 5⟩ ⟨"daily/x", "x"⟩).2 rfl

/-- C7: loading never fails: a missing blob yields the defaults, and for a
present blob each absent field falls back to its default value while each
present field takes the blob's value. -/
theorem claim_C7 (p : PartialData) :
    loadData none = DEFAULT_DATA ∧
    (∀ v, p.recentFiles = some v → (loadData (some p)).recentFiles = v) ∧
    (p.recentFiles = none → (loadData (some p)).recentFiles = []) ∧
    (∀ v, p.omittedPaths = some v → (loadData (some p)).omittedPaths = v) ∧
    (p.omittedPaths = none → (loadData (some p)).omittedPaths = []) ∧
    (∀ v, p.maxLength = some v → (loadData (some p)).maxLength = v) ∧
    (p.maxLength = none → (loadData (some p)).maxLength = 5) := by
  refine ⟨rfl, ?_, ?_, ?_, ?_, ?_, ?_⟩
  · intro v hv; simp [loadData, objectAssign, hv]
  · intro hv; simp [loadData, objectAssign, DEFAULT_DATA, hv]
  · intro v hv; simp [loadData, objectAssign, hv]
  · intro hv; simp [loadData, objectAssign, DEFAULT_DATA, hv]
  · intro v hv; simp [loadData, objectAssign, hv]
  · intro hv; simp [loadData, objectAssign, DEFAULT_DATA, hv]

/-- Witness for C7 at a concrete input: a blob carrying only `maxLength`
keeps the default empty lists and takes the blob's `maxLength`. -/
theorem claim_C7_witness :
    (loadData (some ⟨none, none, some 9⟩)).recentFiles = [] ∧
    (loadData (some ⟨none, none, some 9⟩)).maxLength = 9 :=
  ⟨(claim_C7 ⟨none, none, some 9⟩).2.2.1 rfl,
    (claim_C7 ⟨none, none, some 9⟩).2.2.2.2.2.1 9 rfl⟩

/-- C8: `redraw` produces one row per recent-list entry, in list order, each
labelled with the entry's basename; a row is active exactly when its entry's
basename equals the open file's basename, and when no entry matches, no row
is marked. -/
theorem claim_C8 (files : List File) (active : File) :
    ((redraw files active).map Row.label = files.map File.basename) ∧
    (∀ i (h1 : i < (redraw files active).length) (h2 : i < files.length),
      (((redraw files active).get ⟨i, h1⟩).isActive = true ↔
        (files.get ⟨i, h2⟩).basename = active.basename)) ∧
    ((∀ g ∈ files, g.basename ≠ active.basename) →
      ∀ r ∈ redraw files active, r.isActive = false) := by
  refine ⟨?_, ?_, ?_⟩
  · simp [redraw, Function.comp_def]
  · intro i h1 h2
    simp [redraw, List.get_map]
  · intro hnone r hr
    rw [redraw, List.mem_map] at hr
    obtain ⟨g, hg, rfl⟩ := hr
    simpa using hnone g hg

/-- Witness for C8 at a concrete input: the rows of a two-entry list carry
the entries' basenames in order. -/
theorem claim_C8_witness :
    (redraw [⟨"/a", "A"⟩, ⟨"/b", "B"⟩] ⟨"/b", "B"⟩).map Row.label
      = ([⟨"/a", "A"⟩, ⟨"/b", "B"⟩] : List File).map File.basename :=
  (claim_C8 [⟨"/a", "A"⟩, ⟨"/b", "B"⟩] ⟨"/b", "B"⟩).1

end RecentFiles
